import Mathlib

/-!
Verification of the AarambhNet echo servers (TCP/UDP), TCP client and HTTP
client header merging, against a shallow embedding of the Rust source.

Machine bytes are modelled as `Nat` (values 0..255 where relevant); byte
buffers as `List Nat`; fallible operations return `Except`/`Option`.
-/

namespace AarambhNet

/-! ## Model of `tokio::sync::Notify` (the ShutdownSignal primitive)

`Notify` holds at most one stored permit and a FIFO list of waiting tasks
(identified here by `Nat` ids).  `notify_one` wakes the frontmost waiter if
one exists, otherwise stores a single permit; `notified().await` completes
immediately when a permit is stored (consuming it), otherwise enqueues the
task as a waiter. -/

structure NotifyState where
  permit : Bool
  waiters : List Nat
  deriving Repr, DecidableEq

/-- `Notify::notify_one`: wake the first waiter if any (returning its id),
else store a permit.  Returns the new state and the woken task, if any. -/
def notifyOne (s : NotifyState) : NotifyState × Option Nat :=
  match s.waiters with
  | [] => ({ permit := true, waiters := [] }, none)
  | w :: rest => ({ permit := s.permit, waiters := rest }, some w)

/-- One poll of `notified().await` by task `t`: completes at once when a
permit is stored (consuming it), else registers `t` as a waiter. -/
def notifiedPoll (s : NotifyState) (t : Nat) : NotifyState × Bool :=
  if s.permit then ({ s with permit := false }, true)
  else ({ s with waiters := s.waiters ++ [t] }, false)

/-- `TcpServer::shutdown`: a single `notify_one` call on the shared signal. -/
def tcpShutdown (s : NotifyState) : NotifyState × Option Nat := notifyOne s

/-- `UdpServer::shutdown`: a single `notify_one` call on the shared signal. -/
def udpShutdown (s : NotifyState) : NotifyState × Option Nat := notifyOne s

/-! ## TCP server (`src/tcp/server.rs`)

The per-connection handler task owns `buffer = vec![0; 1024]`.  One loop
iteration races `socket.read(&mut buffer)` against `notify.notified()`.
`read` fills the first `n` bytes of the buffer with the next bytes of the
stream (at most the buffer capacity) and returns `n`; the echo then writes
the slice `&buffer[..n]` back to the same socket. -/

def bufferSize : Nat := 1024

def freshBuffer : List Nat := List.replicate bufferSize 0

/-- `socket.read(&mut buffer)`: take at most `buffer.length` pending bytes,
overwriting the front of the buffer.  Returns `(n, new buffer contents)`. -/
def socketReadInto (pending buffer : List Nat) : Nat × List Nat :=
  let chunk := pending.take buffer.length
  (chunk.length, chunk ++ buffer.drop chunk.length)

/-- `socket.write_all(&buffer[..n])`: the bytes written back. -/
def echoSlice (buffer : List Nat) (n : Nat) : List Nat := buffer.take n

/-- Result of `socket.read` as matched in the handler. -/
inductive ReadResult where
  | ok (bytes : List Nat)
  | err (e : String)
  deriving Repr, DecidableEq

/-- Result of `socket.write_all` of the echo. -/
inductive WriteResult where
  | ok
  | err (e : String)
  deriving Repr, DecidableEq

/-- The event that wins one `tokio::select!` race inside the handler loop:
either the read completes (with the subsequent write outcome when a write is
attempted), or the shutdown notification is observed. -/
inductive HandlerEvent where
  | read (r : ReadResult) (w : WriteResult)
  | shutdownWake
  deriving Repr, DecidableEq

/-- Log messages the handler can emit (logger feature). -/
inductive LogMsg where
  | warnDisconnect
  | infoReceived
  | infoEchoed
  | errWrite (e : String)
  | errRead (e : String)
  | infoShutdown
  | infoNewConn (peer : String)
  | errSend (e : String)
  deriving Repr, DecidableEq

/-- Outcome of one handler-loop iteration: keep looping, or `return` out of
the spawned task (the task's return type is `()`, so no error can escape). -/
inductive IterResult where
  | continueLoop
  | exitHandler
  deriving Repr, DecidableEq

/-- One iteration of the handler loop, translated arm by arm from the
`tokio::select!` in `TcpServer::run`'s spawned task:
`Ok(0)` → warn + return; `Ok(n)` → echo, write error → error log + return,
else continue; `Err(e)` → error log + return; notified → info + return. -/
def handlerIter : HandlerEvent → List LogMsg × IterResult
  | .read (.ok []) _ => ([.warnDisconnect], .exitHandler)
  | .read (.ok _) .ok => ([.infoReceived, .infoEchoed], .continueLoop)
  | .read (.ok _) (.err e) => ([.infoReceived, .errWrite e], .exitHandler)
  | .read (.err e) _ => ([.errRead e], .exitHandler)
  | .shutdownWake => ([.infoShutdown], .exitHandler)

/-- Spec-side characterisation (from the claim's words) of when the handler
loop ends: read of 0 bytes, read error, echo-write error, or shutdown. -/
def specHandlerExit : HandlerEvent → Prop
  | .read (.ok bytes) w => bytes = [] ∨ ∃ e, w = .err e
  | .read (.err _) _ => True
  | .shutdownWake => True

/-! ## TCP acceptor loop (`TcpServer::run`)

The outer loop is `tokio::select!` with a single branch whose pattern is
`Ok((socket, addr)) = self.listener.accept()`.  Per `tokio::select!`
semantics, an `Err` from `accept` fails the pattern and disables the branch;
with every branch disabled and no `else` branch the macro aborts the task at
runtime.  There is no branch waiting on `notify.notified()` in this loop. -/

inductive AcceptEvent where
  | ok (connId : Nat) (peer : String)
  | err (e : String)
  deriving Repr, DecidableEq

inductive AcceptorOutcome where
  | spawnHandler (connId : Nat)
  | crashed
  deriving Repr, DecidableEq

/-- One iteration of the acceptor loop.  It takes the shared signal state
only to record that the iteration never reads it: on a successful accept it
logs the new connection and spawns a handler (then continues the loop); on a
failed accept the only select branch is disabled and the select aborts, with
no log emitted. -/
def acceptorIter (_s : NotifyState) : AcceptEvent → List LogMsg × AcceptorOutcome
  | .ok connId peer => ([.infoNewConn peer], .spawnHandler connId)
  | .err _ => ([], .crashed)

/-! ## UDP server (`src/udp.rs`)

`UdpServer::run` owns `buf = [0; 1024]` and loops a `tokio::select!` racing
`socket.recv_from(&mut buf)` against `notify.notified()`.  `recv_from`
truncates the datagram payload to the buffer capacity (the tail of a larger
datagram is discarded by the OS) and yields the sender's address; the server
then calls `send_to(&buf[..len], addr)`, and a send error is only logged. -/

/-- `socket.recv_from(&mut buf)` for a datagram with the given payload:
the first `buf.length` payload bytes overwrite the front of the buffer, the
rest of the datagram is lost.  Returns `(len, new buffer contents)`. -/
def udpRecvInto (payload buf : List Nat) : Nat × List Nat :=
  let chunk := payload.take buf.length
  (chunk.length, chunk ++ buf.drop chunk.length)

/-- Result of `socket.send_to`. -/
inductive SendResult where
  | ok
  | err (e : String)
  deriving Repr, DecidableEq

/-- The event winning one `tokio::select!` race in `UdpServer::run`: a
datagram arrives (with the outcome of the echo `send_to`), or the shutdown
notification is observed. -/
inductive UdpEvent where
  | recv (payload : List Nat) (src : String) (sendRes : SendResult)
  | shutdownObserved
  deriving Repr, DecidableEq

/-- Outcome of one iteration of `UdpServer::run`'s loop: continue looping
(recording the reply datagram attempted, if any, and the logs), or exit the
loop returning the value `run` returns. -/
inductive UdpStep where
  | cont (sent : Option (List Nat × String)) (logs : List LogMsg)
  | exit (r : Except String Unit)
  deriving Repr

/-- One iteration of `UdpServer::run`'s loop, translated from the select:
on receipt, `send_to(&buf[..len], addr)` echoes the received bytes to the
source; a send error is logged and the loop continues; on the shutdown
notification the loop returns `Ok(())`. -/
def udpRunStep (buf : List Nat) : UdpEvent → UdpStep
  | .recv payload src sendRes =>
    let r := udpRecvInto payload buf
    let reply := (r.2).take r.1
    match sendRes with
    | .ok => .cont (some (reply, src)) []
    | .err e => .cont (some (reply, src)) [.errSend e]
  | .shutdownObserved => .exit (Except.ok ())

/-! ## HTTP client header merging (`src/http.rs`)

`reqwest::header::HeaderMap` is modelled as an association list of
`(name, value)` pairs; `HeaderMap::insert` replaces the value of an existing
name in place, else appends the pair.  `merge_headers` starts from the
default headers (or an empty map) and inserts every extra header. -/

abbrev HeaderMap := List (String × String)

/-- Lookup of a header name. -/
def findHeader (m : HeaderMap) (k : String) : Option String :=
  (m.find? (fun p => p.1 = k)).map Prod.snd

/-- `HeaderMap::insert`: replace the value at name `k` when present, keeping
its position; otherwise append `(k, v)`. -/
def insertHeader : HeaderMap → String → String → HeaderMap
  | [], k, v => [(k, v)]
  | p :: rest, k, v =>
    if p.1 = k then (k, v) :: rest else p :: insertHeader rest k v

/-- `HttpClient::merge_headers`: clone the default headers (or start empty),
then insert each extra header, extras overriding defaults. -/
def merge_headers (defaults : Option HeaderMap) (extras : Option HeaderMap) :
    HeaderMap :=
  let merged := defaults.getD []
  match extras with
  | none => merged
  | some ex => ex.foldl (fun acc p => insertHeader acc p.1 p.2) merged

/-- Header names of a map, for no-duplicate hypotheses. -/
def headerKeys (m : HeaderMap) : List String := m.map Prod.fst

/-! ## Lossy UTF-8 decoding (`String::from_utf8_lossy`)

Model of Rust std's lossy decoding as used by `TcpClient::receive_response`
and both servers' logging.  The byte classification follows core's UTF-8
validation table: each step either decodes one well-formed scalar-value
sequence, or consumes the maximal prefix of a well-formed sequence (at least
one byte) and emits U+FFFD. -/

/-- Is `b` a UTF-8 continuation byte (`0x80..=0xBF`)? -/
def contByte (b : Nat) : Bool := 0x80 ≤ b && b ≤ 0xBF

/-- Allowed second byte of a three-byte sequence led by `b`. -/
def snd3ok (b c1 : Nat) : Bool :=
  if b = 0xE0 then 0xA0 ≤ c1 && c1 ≤ 0xBF
  else if b = 0xED then 0x80 ≤ c1 && c1 ≤ 0x9F
  else contByte c1

/-- Allowed second byte of a four-byte sequence led by `b`. -/
def snd4ok (b c1 : Nat) : Bool :=
  if b = 0xF0 then 0x90 ≤ c1 && c1 ≤ 0xBF
  else if b = 0xF4 then 0x80 ≤ c1 && c1 ≤ 0x8F
  else contByte c1

/-- Classification of the head of a byte list: a well-formed sequence of
`len` bytes decoding to `c`, or a maximal invalid part of `len` bytes. -/
inductive Utf8Head where
  | valid (c : Char) (len : Nat)
  | invalid (len : Nat)
  deriving Repr, DecidableEq

/-- Classify the first UTF-8 sequence of a byte list, as Rust's validator
does.  For an ill-formed head, `invalid len` consumes the maximal prefix of
a well-formed sequence (1–3 bytes), matching `Utf8Error` error lengths; an
incomplete sequence at end of input consumes what remains of it. -/
def utf8Head : List Nat → Utf8Head
  | [] => .invalid 1
  | b :: rest =>
    if b < 0x80 then .valid (Char.ofNat b) 1
    else if b < 0xC2 then .invalid 1
    else if b ≤ 0xDF then
      match rest with
      | [] => .invalid 1
      | c1 :: _ =>
        if contByte c1 then
          .valid (Char.ofNat ((b - 0xC0) * 0x40 + (c1 - 0x80))) 2
        else .invalid 1
    else if b ≤ 0xEF then
      match rest with
      | [] => .invalid 1
      | c1 :: rest1 =>
        if snd3ok b c1 then
          match rest1 with
          | [] => .invalid 2
          | c2 :: _ =>
            if contByte c2 then
              .valid (Char.ofNat
                ((b - 0xE0) * 0x1000 + (c1 - 0x80) * 0x40 + (c2 - 0x80))) 3
            else .invalid 2
        else .invalid 1
    else if b ≤ 0xF4 then
      match rest with
      | [] => .invalid 1
      | c1 :: rest1 =>
        if snd4ok b c1 then
          match rest1 with
          | [] => .invalid 2
          | c2 :: rest2 =>
            if contByte c2 then
              match rest2 with
              | [] => .invalid 3
              | c3 :: _ =>
                if contByte c3 then
                  .valid (Char.ofNat
                    ((b - 0xF0) * 0x40000 + (c1 - 0x80) * 0x1000 +
                      (c2 - 0x80) * 0x40 + (c3 - 0x80))) 4
                else .invalid 3
            else .invalid 2
        else .invalid 1
    else .invalid 1

/-- The number of bytes a head classification consumes. -/
def headLen : Utf8Head → Nat
  | .valid _ len => len
  | .invalid len => len

theorem headLen_pos (l : List Nat) : 1 ≤ headLen (utf8Head l) := by
  cases l with
  | nil => simp [utf8Head, headLen]
  | cons b rest =>
    simp only [utf8Head]
    repeat' split
    all_goals simp [headLen]

theorem utf8Head_valid_len (l : List Nat) (c : Char) (len : Nat)
    (h : utf8Head l = .valid c len) : 1 ≤ len := by
  have h1 := headLen_pos l
  rw [h] at h1
  simpa [headLen] using h1

theorem utf8Head_invalid_len (l : List Nat) (len : Nat)
    (h : utf8Head l = .invalid len) : 1 ≤ len := by
  have h1 := headLen_pos l
  rw [h] at h1
  simpa [headLen] using h1

/-- The replacement character U+FFFD. -/
def replChar : Char := Char.ofNat 0xFFFD

/-- `String::from_utf8_lossy` as a list of decoded characters: well-formed
sequences decode to their scalar value, each maximal ill-formed part becomes
one U+FFFD. -/
def utf8Lossy (l : List Nat) : List Char :=
  match l with
  | [] => []
  | b :: rest =>
    match h : utf8Head (b :: rest) with
    | .valid c len => c :: utf8Lossy ((b :: rest).drop len)
    | .invalid len => replChar :: utf8Lossy ((b :: rest).drop len)
  termination_by l.length
  decreasing_by
    · have h1 := utf8Head_valid_len _ _ _ h
      simp only [List.length_drop, List.length_cons]
      omega
    · have h1 := utf8Head_invalid_len _ _ h
      simp only [List.length_drop, List.length_cons]
      omega

/-- Rust's UTF-8 validity check (`str::from_utf8` succeeding), via the same
sequence classification. -/
def validUtf8 (l : List Nat) : Bool :=
  match l with
  | [] => true
  | b :: rest =>
    match h : utf8Head (b :: rest) with
    | .valid _ len => validUtf8 ((b :: rest).drop len)
    | .invalid _ => false
  termination_by l.length
  decreasing_by
    have h1 := utf8Head_valid_len _ _ _ h
    simp only [List.length_drop, List.length_cons]
    omega

/-! ## TCP client (`src/tcp/client.rs`)

`receive_response` allocates `buffer = vec![0; 1024]`, performs one
`stream.read(&mut buffer)`, errors with "Connection closed" when the read
returns 0 bytes, propagates a read error, and otherwise returns
`String::from_utf8_lossy(&buffer[..n])`. -/

/-- `TcpClient::receive_response`, over the outcome of the single read: the
stream's pending bytes (of which at most 1024 are delivered) or an error. -/
def receive_response (r : Except String (List Nat)) :
    Except String (List Char) :=
  match r with
  | .error e => .error e
  | .ok pending =>
    let read := socketReadInto pending freshBuffer
    if 0 < read.1 then
      .ok (utf8Lossy ((read.2).take read.1))
    else
      .error "Connection closed"

/-! ## Helper lemmas -/

theorem freshBuffer_length : freshBuffer.length = 1024 := by
  rw [freshBuffer, List.length_replicate, bufferSize]

theorem socketReadInto_spec (pending buffer : List Nat) :
    (socketReadInto pending buffer).1 = (pending.take buffer.length).length ∧
    echoSlice (socketReadInto pending buffer).2 (socketReadInto pending buffer).1
      = pending.take buffer.length := by
  simp [socketReadInto, echoSlice, List.take_left]

theorem utf8Lossy_valid_step (b : Nat) (rest : List Nat) (c : Char) (len : Nat)
    (h : utf8Head (b :: rest) = .valid c len) :
    utf8Lossy (b :: rest) = c :: utf8Lossy ((b :: rest).drop len) := by
  rw [utf8Lossy.eq_def]
  split
  · simp_all
  · split <;> simp_all

theorem utf8Lossy_invalid_step (b : Nat) (rest : List Nat) (len : Nat)
    (h : utf8Head (b :: rest) = .invalid len) :
    utf8Lossy (b :: rest) = replChar :: utf8Lossy ((b :: rest).drop len) := by
  rw [utf8Lossy.eq_def]
  split
  · simp_all
  · split <;> simp_all

theorem validUtf8_valid_step (b : Nat) (rest : List Nat) (c : Char) (len : Nat)
    (h : utf8Head (b :: rest) = .valid c len) :
    validUtf8 (b :: rest) = validUtf8 ((b :: rest).drop len) := by
  rw [validUtf8.eq_def]
  split
  · simp_all
  · split <;> simp_all

/-- An ill-formed byte sequence never round-trips through lossy decoding
verbatim: some maximal invalid part is replaced by U+FFFD, which therefore
occurs in the decoded character list. -/
theorem replChar_mem_of_invalid (l : List Nat) (hv : validUtf8 l = false) :
    replChar ∈ utf8Lossy l := by
  induction l using utf8Lossy.induct with
  | case1 => simp [validUtf8] at hv
  | case2 b rest c len h ih =>
    rw [validUtf8_valid_step b rest c len h] at hv
    rw [utf8Lossy_valid_step b rest c len h]
    exact List.mem_cons_of_mem _ (ih hv)
  | case3 b rest len h ih =>
    rw [utf8Lossy_invalid_step b rest len h]
    exact List.mem_cons_self _ _

theorem findHeader_cons (p : String × String) (m : HeaderMap) (k : String) :
    findHeader (p :: m) k = if p.1 = k then some p.2 else findHeader m k := by
  by_cases h : p.1 = k <;> simp [findHeader, List.find?_cons, h]

theorem findHeader_insertHeader_self (m : HeaderMap) (k v : String) :
    findHeader (insertHeader m k v) k = some v := by
  induction m with
  | nil => simp [insertHeader, findHeader_cons, findHeader]
  | cons p rest ih =>
    by_cases hp : p.1 = k
    · simp [insertHeader, hp, findHeader_cons]
    · simp [insertHeader, hp, findHeader_cons, ih]

theorem findHeader_insertHeader_ne (m : HeaderMap) (k j v : String)
    (hj : j ≠ k) :
    findHeader (insertHeader m j v) k = findHeader m k := by
  induction m with
  | nil => simp [insertHeader, findHeader_cons, findHeader, hj]
  | cons p rest ih =>
    by_cases hp : p.1 = j
    · simp only [insertHeader, if_pos hp]
      rw [findHeader_cons, findHeader_cons, hp]
      simp [hj]
    · simp only [insertHeader, if_neg hp]
      rw [findHeader_cons, findHeader_cons, ih]

theorem insertHeader_of_not_mem (m : HeaderMap) (k v : String)
    (h : k ∉ headerKeys m) :
    insertHeader m k v = m ++ [(k, v)] := by
  induction m with
  | nil => rfl
  | cons p rest ih =>
    simp only [headerKeys, List.map_cons, List.mem_cons] at h
    push_neg at h
    have hp : p.1 ≠ k := fun hc => h.1 hc.symm
    simp only [insertHeader, if_neg hp, List.cons_append]
    rw [ih (by simpa [headerKeys] using h.2)]

theorem mergeFold_findHeader_of_not_mem (ex : HeaderMap) (acc : HeaderMap)
    (k : String) (h : k ∉ headerKeys ex) :
    findHeader (ex.foldl (fun a p => insertHeader a p.1 p.2) acc) k
      = findHeader acc k := by
  induction ex generalizing acc with
  | nil => rfl
  | cons p rest ih =>
    simp only [headerKeys, List.map_cons, List.mem_cons] at h
    push_neg at h
    rw [List.foldl_cons, ih _ (by simpa [headerKeys] using h.2)]
    exact findHeader_insertHeader_ne acc k p.1 p.2 (fun hc => h.1 hc.symm)

theorem mergeFold_findHeader_of_mem (ex : HeaderMap) (acc : HeaderMap)
    (k : String) (hnd : (headerKeys ex).Nodup) (hk : k ∈ headerKeys ex) :
    findHeader (ex.foldl (fun a p => insertHeader a p.1 p.2) acc) k
      = findHeader ex k := by
  induction ex generalizing acc with
  | nil => cases hk
  | cons p rest ih =>
    simp only [headerKeys, List.map_cons, List.nodup_cons] at hnd
    rw [List.foldl_cons, findHeader_cons]
    by_cases hp : p.1 = k
    · have hkrest : k ∉ headerKeys rest := by
        rw [← hp]; simpa [headerKeys] using hnd.1
      rw [if_pos hp, mergeFold_findHeader_of_not_mem rest _ k hkrest, ← hp,
        findHeader_insertHeader_self]
    · have hkrest : k ∈ headerKeys rest := by
        simp only [headerKeys, List.map_cons, List.mem_cons] at hk
        rcases hk with hk | hk
        · exact absurd hk.symm hp
        · simpa [headerKeys] using hk
      rw [if_neg hp]
      exact ih _ hnd.2 hkrest

theorem mergeFold_eq_append (ex : HeaderMap) (acc : HeaderMap)
    (hnd : (headerKeys ex).Nodup)
    (hdisj : ∀ j ∈ headerKeys ex, j ∉ headerKeys acc) :
    ex.foldl (fun a p => insertHeader a p.1 p.2) acc = acc ++ ex := by
  induction ex generalizing acc with
  | nil => simp
  | cons p rest ih =>
    simp only [headerKeys, List.map_cons, List.nodup_cons] at hnd
    have hpacc : p.1 ∉ headerKeys acc :=
      hdisj p.1 (by simp [headerKeys])
    rw [List.foldl_cons, insertHeader_of_not_mem acc p.1 p.2 hpacc]
    have hdisj2 : ∀ j ∈ headerKeys rest,
        j ∉ headerKeys (acc ++ [(p.1, p.2)]) := by
      intro j hj
      have hj1 : j ∉ headerKeys acc :=
        hdisj j (by simp [headerKeys]; right; simpa [headerKeys] using hj)
      have hj2 : j ≠ p.1 := by
        intro hc
        apply hnd.1
        rw [← hc]
        simpa [headerKeys] using hj
      simp [headerKeys, List.map_append, hj2]
      simpa [headerKeys] using hj1
    rw [ih _ hnd.2 hdisj2]
    simp

/-! ## Claim theorems -/

/-- C1: a read that returns `n > 0` bytes into the 1024-byte handler buffer
(whatever that reused buffer previously held) is echoed back as exactly those
`n` bytes — the written slice `&buffer[..n]` equals the bytes just read, in
value and order — and for a byte sequence of at most 1024 bytes received in
one read the echoed reply equals the input exactly. -/
theorem tcp_echo_exact (pending buffer : List Nat)
    (hbuf : buffer.length = 1024) (hne : pending ≠ []) :
    0 < (socketReadInto pending buffer).1 ∧
    (socketReadInto pending buffer).1 ≤ 1024 ∧
    echoSlice (socketReadInto pending buffer).2
        (socketReadInto pending buffer).1 = pending.take 1024 ∧
    (pending.length ≤ 1024 →
      echoSlice (socketReadInto pending buffer).2
        (socketReadInto pending buffer).1 = pending) := by
  obtain ⟨h1, h2⟩ := socketReadInto_spec pending buffer
  rw [hbuf] at h1 h2
  have hpos : 0 < pending.length := List.length_pos.mpr hne
  refine ⟨?_, ?_, h2, fun hle => ?_⟩
  · rw [h1]; simp [List.length_take]; omega
  · rw [h1]; simp [List.length_take]
  · rw [h2]; exact List.take_of_length_le hle

theorem tcp_echo_exact_witness :
    ([72, 105, 33] : List Nat) ≠ [] ∧
    echoSlice (socketReadInto [72, 105, 33] freshBuffer).2
      (socketReadInto [72, 105, 33] freshBuffer).1 = [72, 105, 33] :=
  ⟨by decide,
    (tcp_echo_exact [72, 105, 33] freshBuffer freshBuffer_length
      (by decide)).2.2.2 (by decide)⟩

/-- C2: one `shutdown()` call performs a single `notify_one`, and with two or
more handler tasks waiting on the signal it wakes exactly the first waiter:
the woken set has size one, the remaining waiters stay registered (so they do
not observe this trigger), and the one waiter that is woken exits its loop. -/
theorem shutdown_single_wake (p : Bool) (t1 t2 : Nat) (rest : List Nat) :
    (tcpShutdown ⟨p, t1 :: t2 :: rest⟩).2 = some t1 ∧
    (tcpShutdown ⟨p, t1 :: t2 :: rest⟩).1.waiters = t2 :: rest ∧
    ((tcpShutdown ⟨p, t1 :: t2 :: rest⟩).2.toList).length = 1 ∧
    (handlerIter .shutdownWake).2 = .exitHandler := by
  refine ⟨?_, ?_, ?_, rfl⟩ <;> simp [tcpShutdown, notifyOne]

/-- C3 counterexample: an accept failure in `TcpServer::run`'s loop is not
logged and does not let the loop continue — the select's only branch pattern
fails and the select aborts the loop at runtime. -/
theorem accept_error_aborts_cex :
    acceptorIter ⟨false, []⟩ (.err "accept failed") = ([], .crashed) := rfl

/-- C3 (amended): for every accept failure in `run()`'s loop, nothing is
logged and the loop does not continue: the `Err` fails the single select
branch's `Ok` pattern, all branches are disabled, and with no `else` branch
the select aborts `run()` at runtime. -/
theorem accept_error_aborts (s : NotifyState) (e : String) :
    acceptorIter s (.err e) = ([], .crashed) := rfl

/-- C4: the handler loop exits exactly on read-of-0, read error, echo-write
error, or the shutdown signal; read-of-0 exits with only a warning, read and
write errors are logged inside the handler, and every exit is a plain
`return` of the spawned task — the `IterResult` carries no error value, so
nothing propagates out of the handler. -/
theorem handler_exit_cases (ev : HandlerEvent) :
    ((handlerIter ev).2 = .exitHandler ↔ specHandlerExit ev) ∧
    (∀ w, handlerIter (.read (.ok []) w) = ([.warnDisconnect], .exitHandler)) ∧
    (∀ e w, handlerIter (.read (.err e) w) = ([.errRead e], .exitHandler)) ∧
    (∀ b bs e, handlerIter (.read (.ok (b :: bs)) (.err e)) =
      ([.infoReceived, .errWrite e], .exitHandler)) ∧
    handlerIter .shutdownWake = ([.infoShutdown], .exitHandler) := by
  refine ⟨?_, fun w => by cases w <;> rfl, fun e w => by cases w <;> rfl,
    fun b bs e => rfl, rfl⟩
  cases ev with
  | read r w =>
    cases r with
    | ok bytes =>
      cases bytes with
      | nil => cases w <;> simp [handlerIter, specHandlerExit]
      | cons b bs =>
        cases w with
        | ok => simp [handlerIter, specHandlerExit]
        | err e => simp [handlerIter, specHandlerExit]
    | err e => cases w <;> simp [handlerIter, specHandlerExit]
  | shutdownWake => simp [handlerIter, specHandlerExit]

/-- C5: when `UdpServer::run`'s loop observes the shutdown signal it exits
returning `Ok(())`; and with no pending datagram a `shutdown()` reaches the
single run loop — waking it when it is already waiting, or storing a permit
that completes the loop's next `notified()` poll immediately. -/
theorem udp_shutdown_run_ok (p : Bool) (t : Nat) :
    udpRunStep freshBuffer .shutdownObserved = .exit (Except.ok ()) ∧
    (udpShutdown ⟨p, [t]⟩).2 = some t ∧
    (udpShutdown ⟨p, [t]⟩).1.waiters = [] ∧
    (notifiedPoll (udpShutdown ⟨false, []⟩).1 t).2 = true := by
  refine ⟨rfl, ?_, ?_, ?_⟩ <;> simp [udpShutdown, notifyOne, notifiedPoll]

/-- C6: each received datagram is echoed back — the bytes delivered into the
buffer are sent, unchanged, to the datagram's source address — and a send
failure is only logged: the loop continues, with no retry, and `run()` does
not terminate. -/
theorem udp_echo_send_failure (buf payload : List Nat) (src e : String)
    (hbuf : buf.length = 1024) :
    udpRunStep buf (.recv payload src .ok) =
      .cont (some (payload.take 1024, src)) [] ∧
    udpRunStep buf (.recv payload src (.err e)) =
      .cont (some (payload.take 1024, src)) [.errSend e] := by
  constructor <;> simp [udpRunStep, udpRecvInto, hbuf, List.take_left]

theorem udp_echo_send_failure_witness :
    freshBuffer.length = 1024 ∧
    udpRunStep freshBuffer (.recv [1, 2, 3] "peer" (.err "net down")) =
      .cont (some (List.take 1024 [1, 2, 3], "peer")) [.errSend "net down"] :=
  ⟨freshBuffer_length,
    (udp_echo_send_failure freshBuffer [1, 2, 3] "peer" "net down"
      freshBuffer_length).2⟩

/-- C7: a datagram payload longer than 1024 bytes is received as exactly its
first 1024 bytes (the tail is lost) and the echo reply is exactly those 1024
received bytes; a payload of at most 1024 bytes is received and echoed
whole. -/
theorem udp_truncation (buf payload : List Nat) (hbuf : buf.length = 1024)
    (hgt : 1024 < payload.length) :
    (udpRecvInto payload buf).1 = 1024 ∧
    (udpRecvInto payload buf).2.take (udpRecvInto payload buf).1
      = payload.take 1024 ∧
    (payload.take 1024).length = 1024 ∧
    (∀ q : List Nat, q.length ≤ 1024 →
      (udpRecvInto q buf).1 = q.length ∧
      (udpRecvInto q buf).2.take (udpRecvInto q buf).1 = q) := by
  refine ⟨?_, ?_, ?_, fun q hq => ⟨?_, ?_⟩⟩
  · simp [udpRecvInto, hbuf, List.length_take]; omega
  · simp [udpRecvInto, hbuf, List.take_left]
  · simp [List.length_take]; omega
  · simp [udpRecvInto, hbuf, List.length_take]; omega
  · simp [udpRecvInto, hbuf, List.take_left, List.take_of_length_le hq]

theorem udp_truncation_witness :
    freshBuffer.length = 1024 ∧ 1024 < (List.replicate 1025 7).length ∧
    (udpRecvInto (List.replicate 1025 7) freshBuffer).1 = 1024 :=
  ⟨freshBuffer_length, by norm_num [List.length_replicate],
    (udp_truncation freshBuffer (List.replicate 1025 7) freshBuffer_length
      (by norm_num [List.length_replicate])).1⟩

/-- C8: the headers sent with a request are the default headers merged with
the extra headers: a name only in the defaults keeps its default value, a
name in the extras (only there, or in both) gets the extra value, and with no
default headers the merge is exactly the extras. -/
theorem http_merge_headers_spec (defaults extras : HeaderMap) (k : String)
    (hnd : (headerKeys extras).Nodup) :
    (k ∉ headerKeys extras →
      findHeader (merge_headers (some defaults) (some extras)) k
        = findHeader defaults k) ∧
    (k ∈ headerKeys extras →
      findHeader (merge_headers (some defaults) (some extras)) k
        = findHeader extras k) ∧
    merge_headers none (some extras) = extras ∧
    merge_headers (some defaults) none = defaults := by
  refine ⟨fun h => ?_, fun h => ?_, ?_, rfl⟩
  · simpa [merge_headers] using
      mergeFold_findHeader_of_not_mem extras defaults k h
  · simpa [merge_headers] using
      mergeFold_findHeader_of_mem extras defaults k hnd h
  · simpa [merge_headers] using
      mergeFold_eq_append extras [] hnd (by simp [headerKeys])

theorem http_merge_headers_spec_witness :
    (headerKeys [("b", "9"), ("c", "3")]).Nodup ∧
    findHeader
      (merge_headers (some [("a", "1"), ("b", "2")])
        (some [("b", "9"), ("c", "3")])) "b"
      = findHeader [("b", "9"), ("c", "3")] "b" :=
  ⟨by decide,
    (http_merge_headers_spec [("a", "1"), ("b", "2")] [("b", "9"), ("c", "3")]
      "b" (by decide)).2.1 (by decide)⟩

/-- C9: `receive_response` delivers at most 1024 bytes of the reply (its
result only depends on the first 1024 pending bytes), decodes what was read
with lossy UTF-8 — so a reply that is not valid UTF-8 comes back with U+FFFD
replacing each ill-formed part rather than verbatim — and a read of 0 bytes
yields the error "Connection closed" instead of an empty message. -/
theorem tcp_client_receive (pending : List Nat) (hne : pending ≠ []) :
    receive_response (.ok pending) = .ok (utf8Lossy (pending.take 1024)) ∧
    receive_response (.ok pending) = receive_response (.ok (pending.take 1024)) ∧
    receive_response (Except.ok ([] : List Nat)) = .error "Connection closed" ∧
    (∀ e, receive_response (.error e) = .error e) ∧
    (∀ bs : List Nat, validUtf8 bs = false → replChar ∈ utf8Lossy bs) := by
  have hpos : 0 < (pending.take 1024).length := by
    have := List.length_pos.mpr hne
    simp [List.length_take]; omega
  have key : ∀ q : List Nat, q ≠ [] →
      receive_response (.ok q) = .ok (utf8Lossy (q.take 1024)) := by
    intro q hq
    have hlen : (socketReadInto q freshBuffer).1 = (q.take 1024).length := by
      have := (socketReadInto_spec q freshBuffer).1
      rwa [freshBuffer_length] at this
    have hslice : (socketReadInto q freshBuffer).2.take
        (socketReadInto q freshBuffer).1 = q.take 1024 := by
      have := (socketReadInto_spec q freshBuffer).2
      rwa [freshBuffer_length] at this
    have hqpos : 0 < (q.take 1024).length := by
      have := List.length_pos.mpr hq
      simp [List.length_take]; omega
    simp only [receive_response]
    rw [hslice]
    rw [hlen, if_pos hqpos]
  refine ⟨key pending hne, ?_, ?_, fun e => rfl, replChar_mem_of_invalid⟩
  · rw [key pending hne, key (pending.take 1024) (by
      intro hcon
      rw [hcon] at hpos
      simp at hpos)]
    rw [List.take_take]
    norm_num
  · simp [receive_response, socketReadInto]

theorem tcp_client_receive_witness :
    ([0xFF] : List Nat) ≠ [] ∧
    receive_response (.ok [0xFF]) = .ok (utf8Lossy (List.take 1024 [0xFF])) ∧
    validUtf8 [0xFF] = false ∧ replChar ∈ utf8Lossy [0xFF] := by
  have h := tcp_client_receive [0xFF] (by decide)
  have hv : validUtf8 [0xFF] = false := by simp [validUtf8, utf8Head]
  exact ⟨by decide, h.1, hv, h.2.2.2.2 [0xFF] hv⟩

/-- C10: the acceptor loop in `TcpServer::run` never waits on the shutdown
signal — its one iteration behaves identically before and after a
`shutdown()` call, and a successful accept still spawns a handler and keeps
the loop going — while the spawned handlers are the ones racing the signal
(a handler that observes it exits). -/
theorem acceptor_ignores_shutdown (s : NotifyState) (ev : AcceptEvent) :
    acceptorIter ((tcpShutdown s).1) ev = acceptorIter s ev ∧
    (∀ connId peer, acceptorIter s (.ok connId peer)
      = ([.infoNewConn peer], .spawnHandler connId)) ∧
    handlerIter .shutdownWake = ([.infoShutdown], .exitHandler) := by
  refine ⟨?_, fun connId peer => rfl, rfl⟩
  cases ev <;> rfl

end AarambhNet
